import Mathlib

/-!
# Verification of the radar tile prefetch-and-playback cache core

Shallow embedding of the cache/prefetch subsystem of `src/app/MapScreen.tsx`
(repository `anthonyle1/scootagator`) together with proofs about the
behaviour claimed by the specification.

The embedded pieces are:

* `runWithConcurrency` (lines 150-163): modelled as a transition system
  `RunnerState` / `settleTask` / `Reachable`.  The JS function spawns
  `min(concurrency, tasks.length)` async workers sharing an index cursor
  `i`; each worker claims `idx := i++`, starts task `idx`, and awaits it
  before claiming another.  JavaScript's single-threaded event loop means
  the spawn phase starts exactly `min(k, N)` tasks before any settles
  (promise settlement is always deferred to a microtask), which is the
  initial state `initState`; afterwards every observable change is "one
  in-flight task settles, its worker claims the next cursor index if any",
  which is the step `settleTask`.
* `prefetchUrlOnce` (lines 143-149): cache-state passing, with the
  platform `Image.prefetch` modelled as a boolean-valued oracle and the
  number of issued underlying fetches returned explicitly.
* `closestFrameIndex` (lines 122-128): binary search; the `while` loop is
  embedded with explicit fuel `hi - lo` (`bsearchGo`), which is exactly
  enough, as proved in `bsearchGo_spec`.
* `lngLatToTile` (lines 131-137): real-number translation of the slippy
  map formula.
* `windowFrames` (lines 307-312): `Array.prototype.slice(-n)` is `drop
  (length - n)`.
* `fetchFrames` (lines 276-304): the frames refresh transition.  The
  enclosing `useEffect` has an empty dependency array, so the closure
  used for every periodic refresh captures `activeTs` from the first
  render (always `undefined`); the captured value is made an explicit
  parameter `capturedActiveTs`, while the live component state is `s`.
* the desired/active handoff effect (lines 359-385): modelled as events
  over `HandoffState`; a dispatched prefetch batch is recorded with its
  target timestamp and a settling batch commits its own target.
* `onPressPlay` (lines 506-517) and `warmPlaybackCache` (lines 395-421):
  `warmPlaybackCache` ends with `setWarming(false); setWarmProgress(1)`
  (the runner settles every task, and progress counts completions), and
  the `warmProgress` read *after* the `await` in `onPressPlay` is the
  closure-captured value from the render at press time, made an explicit
  read of the press-time state.
-/

/-- Settlement outcome of one task, as recorded by `Promise.allSettled`:
each slot is independently fulfilled or rejected. -/
inductive Settled (α : Type) where
  | fulfilled (v : α)
  | rejected
deriving DecidableEq, Repr

/-- State of `runWithConcurrency`'s worker pool: the shared index cursor
`i`, the set of task indices started but not yet settled, and the
`results` slots written so far (`none` = not yet settled). -/
structure RunnerState (α : Type) where
  cursor : Nat
  inflight : Finset Nat
  results : Nat → Option (Settled α)

/-- State after the synchronous spawn phase of `runWithConcurrency tasks k`:
`min k N` workers have each claimed one task (worker `j` claims index `j`)
and suspended on its `await`. -/
def initState (α : Type) (N k : Nat) : RunnerState α :=
  { cursor := min k N, inflight := Finset.range (min k N), results := fun _ => none }

/-- One event-loop step of `runWithConcurrency`: in-flight task `t`
settles (with outcome `outcome t`, written to `results[t]`), and the
worker that awaited it re-enters the `while (i < tasks.length)` loop:
if the cursor is below `N` it claims and starts task `cursor`, else the
worker exits.  Returns `none` when `t` is not in flight. -/
def settleTask {α : Type} (outcome : Nat → Settled α) (N : Nat)
    (s : RunnerState α) (t : Nat) : Option (RunnerState α) :=
  if t ∈ s.inflight then
    some (if s.cursor < N then
      { cursor := s.cursor + 1,
        inflight := insert s.cursor (s.inflight.erase t),
        results := fun j => if j = t then some (outcome t) else s.results j }
    else
      { cursor := s.cursor,
        inflight := s.inflight.erase t,
        results := fun j => if j = t then some (outcome t) else s.results j })
  else none

/-- States reachable by `runWithConcurrency tasks k` on `N` tasks whose
eventual settlements are `outcome`. -/
inductive Reachable {α : Type} (outcome : Nat → Settled α) (N k : Nat) :
    RunnerState α → Prop where
  | init : Reachable outcome N k (initState α N k)
  | step {s s' : RunnerState α} {t : Nat} :
      Reachable outcome N k s → settleTask outcome N s t = some s' →
      Reachable outcome N k s'

/-- One-step relation of the runner (some in-flight task settles). -/
def StepRel {α : Type} (outcome : Nat → Settled α) (N : Nat)
    (s s' : RunnerState α) : Prop :=
  ∃ t, settleTask outcome N s t = some s'

/-- Invariant of the worker pool, preserved by `settleTask`. -/
structure RunnerInv {α : Type} (outcome : Nat → Settled α) (N k : Nat)
    (s : RunnerState α) : Prop where
  card_le : s.inflight.card ≤ min k N
  cursor_le : s.cursor ≤ N
  inflight_lt : ∀ j ∈ s.inflight, j < s.cursor
  settled_ok : ∀ j, j < s.cursor → j ∉ s.inflight → s.results j = some (outcome j)
  fresh : ∀ j, s.cursor ≤ j → s.results j = none
  inflight_unsettled : ∀ j ∈ s.inflight, s.results j = none
  can_progress : 1 ≤ k → s.cursor < N → s.inflight.Nonempty

/-- Number of settle steps still to happen: unclaimed tasks plus in-flight
tasks. -/
def runnerMeasure {α : Type} (N : Nat) (s : RunnerState α) : Nat :=
  (N - s.cursor) + s.inflight.card

/-- The module-level tile cache (`tileCache : Set<string>`) threaded
explicitly, and `Image.prefetch` modelled as a success oracle.  Returns
(resolved value, cache afterwards, number of underlying fetches issued):
a recorded URL resolves `true` with no I/O; otherwise one fetch is
issued, and the URL is recorded only on success. -/
def prefetchUrlOnce (fetchOk : String → Bool) (cache : List String)
    (url : String) : Bool × List String × Nat :=
  if url ∈ cache then (true, cache, 0)
  else
    let ok := fetchOk url
    (ok, if ok then url :: cache else cache, 1)

/-- The `while (lo < hi)` loop of `closestFrameIndex`, with fuel.  The
fuel `hi - lo` used by `bsearch` below is exactly enough (each iteration
shrinks `hi - lo` by at least one), so the fuel-0 fallback is never hit
from `bsearch`.  Out-of-range reads default to `0`; all reads performed
from `closestFrameIndex` are in bounds. -/
def bsearchGo (frames : List Int) (target : Int) :
    Nat → Nat → Nat → Nat
  | 0, lo, _ => lo
  | fuel + 1, lo, hi =>
    if lo < hi then
      if frames.getD ((lo + hi) / 2) 0 < target then
        bsearchGo frames target fuel ((lo + hi) / 2 + 1) hi
      else
        bsearchGo frames target fuel lo ((lo + hi) / 2)
    else lo

/-- The binary-search loop of `closestFrameIndex` run to completion. -/
def bsearch (frames : List Int) (target : Int) (lo hi : Nat) : Nat :=
  bsearchGo frames target (hi - lo) lo hi

/-- `closestFrameIndex` (MapScreen.tsx lines 122-128).  `-1` on the empty
list; otherwise a lower-bound binary search on `[0, length-1]` followed by
`return |frames[a] - target| < |frames[b] - target| ? a : b` with
`a = lo` and `b = max(0, lo - 1)` (natural subtraction is that max). -/
def closestFrameIndex (frames : List Int) (target : Int) : Int :=
  if frames.length = 0 then -1
  else
    let lo := bsearch frames target 0 (frames.length - 1)
    let a := lo
    let b := lo - 1
    if |frames.getD a 0 - target| < |frames.getD b 0 - target| then (a : Int)
    else (b : Int)

/-- `MAX_FRAMES_TO_CACHE` (MapScreen.tsx line 69). -/
def MAX_FRAMES_TO_CACHE : Nat := 18

/-- `windowFrames` (MapScreen.tsx lines 307-312): filter `frames` to
`[nowSec - 120*60, nowSec]`, then `slice(-MAX_FRAMES_TO_CACHE)`, i.e.
drop all but the last `MAX_FRAMES_TO_CACHE` entries. -/
def windowFrames (frames : List Int) (nowSec : Int) : List Int :=
  let twoHoursAgo := nowSec - 120 * 60
  let w := frames.filter fun ts => decide (twoHoursAgo ≤ ts ∧ ts ≤ nowSec)
  w.drop (w.length - MAX_FRAMES_TO_CACHE)

/-- Concrete frame list for the window-capping scenario of the spec:
30 frames, 240 s apart, spanning the two hours ending at `nowSec = 10000`. -/
def frames30 : List Int := (List.range 30).map fun i => 2800 + 240 * (i : Int)

/-- `.sort((a, b) => a - b)` on the merged frame timestamps. -/
def sortAsc (l : List Int) : List Int := List.insertionSort (· ≤ ·) l

/-- The radar cursor state touched by `fetchFrames`: the frame list and
the seeded cursor (`activeTs`, `desiredTs`, `frameIdx`). -/
structure CursorState where
  frames : List Int
  activeTs : Option Int
  desiredTs : Option Int
  frameIdx : Nat
deriving DecidableEq, Repr

/-- The first-fetch seeding expressions of `fetchFrames` (lines 292-297):
`idx = closestFrameIndex(merged, nowSec)`,
`ts = idx >= 0 ? merged[idx] : undefined`, `frameIdx = Math.max(0, idx)`.
Returns the seeded `(timestamp, frameIdx)`. -/
def seedFromFrames (merged : List Int) (nowSec : Int) : Option Int × Nat :=
  let idx := closestFrameIndex merged nowSec
  (if 0 ≤ idx then some (merged.getD idx.toNat 0) else none, (max 0 idx).toNat)

/-- `fetchFrames` (MapScreen.tsx lines 277-300) as a state transition.
`resp` is the parsed provider response (`none` for a network failure,
non-OK status or unparsable JSON); each entry of `past`/`nowcast` is the
JS `Number(f?.time)` with non-finite values already dropped, so an entry
is `some n` for a finite numeric time and `none` otherwise.  The merged
list is sorted ascending; an empty merged list returns early.

The guard `if (activeTs === undefined)` reads `capturedActiveTs`: the
effect that defines `fetchFrames` runs with an empty dependency array, so
the closure invoked by the 3-minute interval captures `activeTs` from the
first render — which is always `undefined` (`none`) — and not the live
state `s.activeTs`. -/
def fetchFrames (capturedActiveTs : Option Int)
    (resp : Option (List (Option Int) × List (Option Int))) (nowSec : Int)
    (s : CursorState) : CursorState :=
  match resp with
  | none => s
  | some (past, nowcast) =>
    let merged := sortAsc ((past ++ nowcast).filterMap id)
    if merged.length = 0 then s
    else
      let s1 := { s with frames := merged }
      if capturedActiveTs = none then
        let seeded := seedFromFrames merged nowSec
        { s1 with activeTs := seeded.1, desiredTs := seeded.1,
                  frameIdx := seeded.2 }
      else s1

/-- State acted on by the desired→active handoff effect (lines 359-385):
the rendered timestamp, the loading flag, and the target timestamps of
prefetch batches dispatched but not yet settled (oldest first). -/
structure HandoffState where
  activeTs : Option Int
  isLoadingFrame : Bool
  pending : List Int
deriving DecidableEq, Repr

/-- The effect body run when `desiredTs` changes.  `!desiredTs` returns
early (also for the falsy timestamp `0`); with no region the active
timestamp is set immediately; otherwise the loading flag is raised and a
prefetch batch for `ts` is dispatched (its `.finally` is the
`settleBatch` event below). -/
def desiredChange (s : HandoffState) (desiredTs : Option Int)
    (regionKnown : Bool) : HandoffState :=
  match desiredTs with
  | none => s
  | some ts =>
    if ts = 0 then s
    else if regionKnown then
      { s with isLoadingFrame := true, pending := s.pending ++ [ts] }
    else
      { s with activeTs := some ts }

/-- The `.finally` of a dispatched batch: whatever the per-task outcomes
were, set `activeTs` to the batch's own target and clear the loading
flag.  `j` selects which pending batch settles; an out-of-range `j` is a
no-op. -/
def settleBatch (s : HandoffState) (j : Nat) (_outcomes : List Bool) :
    HandoffState :=
  match s.pending[j]? with
  | none => s
  | some ts =>
    { activeTs := some ts, isLoadingFrame := false,
      pending := s.pending.eraseIdx j }

/-- Events observed by the handoff state. -/
inductive HandoffEvent where
  | desired (ts : Option Int) (regionKnown : Bool)
  | settle (j : Nat) (outcomes : List Bool)

/-- Apply one handoff event. -/
def applyEvent (s : HandoffState) : HandoffEvent → HandoffState
  | .desired ts known => desiredChange s ts known
  | .settle j outs => settleBatch s j outs

/-- Apply a sequence of handoff events. -/
def applyTrace (s : HandoffState) (evs : List HandoffEvent) : HandoffState :=
  evs.foldl applyEvent s

/-- `WARM_START_THRESHOLD` (MapScreen.tsx line 71). -/
def WARM_START_THRESHOLD : ℚ := 0.85

/-- Playback / warm-up state touched by `onPressPlay`. -/
structure PlayState where
  isPlaying : Bool
  warming : Bool
  warmProgress : ℚ
  lastWarmSig : Option String
deriving DecidableEq, Repr

/-- `onPressPlay` (MapScreen.tsx lines 506-517) from a settled render of
state `s`.  `nWindow` is `windowFrames.length` and `sig` the computed
warm signature (non-null here since a region is known and the window is
non-empty).  On the warm path, `await warmPlaybackCache(...)` runs the
whole window's tasks to completion — every task settles and progress
counts completions, and `warmPlaybackCache` ends with
`setWarming(false); setWarmProgress(1)` — after which the guard
`if (warmProgress >= WARM_START_THRESHOLD)` reads the closure-captured
`warmProgress` of the render the press handler came from, i.e. the
press-time value `s.warmProgress`, not the progress the warm pass just
achieved. -/
def onPressPlay (s : PlayState) (regionKnown : Bool) (nWindow : Nat)
    (sig : String) : PlayState :=
  if regionKnown = false ∨ nWindow < 2 then s
  else if s.lastWarmSig = some sig then { s with isPlaying := !s.isPlaying }
  else
    let captured := s.warmProgress
    let afterWarm : PlayState :=
      { isPlaying := false, warming := false, warmProgress := 1,
        lastWarmSig := some sig }
    if WARM_START_THRESHOLD ≤ captured then
      { afterWarm with isPlaying := true }
    else afterWarm

/-- `lngLatToTile` (MapScreen.tsx lines 131-137) over the reals:
`n = 2^z`, `x = floor((lon+180)/360 * n)`,
`y = floor((1 - ln(tan(latRad) + 1/cos(latRad))/pi)/2 * n)`. -/
noncomputable def lngLatToTile (lon lat : ℝ) (z : ℕ) : ℤ × ℤ × ℕ :=
  (⌊(lon + 180) / 360 * (2 : ℝ) ^ z⌋,
   ⌊(1 - Real.log (Real.tan (lat * Real.pi / 180) +
       1 / Real.cos (lat * Real.pi / 180)) / Real.pi) / 2 * (2 : ℝ) ^ z⌋,
   z)

/-! ## Theorems -/

/-- Claim C5: `prefetchUrlOnce` resolves `true` with no underlying fetch
on an already-recorded URL; two sequential calls issue exactly one
underlying fetch when the first succeeds; a failed fetch resolves `false`
without recording the URL, so a later call issues the fetch again. -/
theorem prefetchUrlOnce_idempotent (f g : String → Bool) (c : List String)
    (u : String) :
    (u ∈ c → prefetchUrlOnce f c u = (true, c, 0)) ∧
    (u ∉ c → f u = true →
      prefetchUrlOnce f c u = (true, u :: c, 1) ∧
      prefetchUrlOnce g (u :: c) u = (true, u :: c, 0)) ∧
    (u ∉ c → f u = false →
      prefetchUrlOnce f c u = (false, c, 1) ∧
      (prefetchUrlOnce g c u).2.2 = 1) := by
  refine ⟨fun hmem => ?_, fun hmem hok => ⟨?_, ?_⟩, fun hmem hfail => ⟨?_, ?_⟩⟩ <;>
    simp [prefetchUrlOnce, hmem]
  · simp [hok]
  · simp [hfail]

/-- Witness for C5 at concrete inputs. -/
theorem prefetchUrlOnce_idempotent_witness :
    prefetchUrlOnce (fun _ => true) [] "u" = (true, ["u"], 1) ∧
    prefetchUrlOnce (fun _ => false) ["u"] "u" = (true, ["u"], 0) := by
  have h := prefetchUrlOnce_idempotent (fun _ => true) (fun _ => false) [] "u"
  exact ⟨(h.2.1 (by decide) rfl).1, (h.2.1 (by decide) rfl).2⟩

/-- Claim C10: on the empty frame list `closestFrameIndex` returns the
sentinel `-1` for every target, and the first-fetch seeding expressions
treat a negative index as "no frame": the seeded timestamp is `none`
(so `activeTimestamp` stays undefined) and the frame index is clamped to
`0`; moreover a refresh whose merged frame list is empty leaves the whole
state untouched. -/
theorem closestFrameIndex_empty_sentinel (t : Int) (s : CursorState)
    (captured : Option Int) :
    closestFrameIndex [] t = -1 ∧
    seedFromFrames [] t = (none, 0) ∧
    fetchFrames captured (some ([], [])) t s = s := by
  refine ⟨rfl, rfl, ?_⟩
  simp [fetchFrames, sortAsc]

/-- Claim C3 (code bug): the refresh transition evaluated at the failing
input.  The component state is already seeded (`activeTs = some 100`,
user has scrubbed `frameIdx` to `0`), a later periodic refresh succeeds
with frames `[100, 200]` at `nowSec = 200`.  Because the interval closure
captured `activeTs` from the first render (`none`), the refresh re-seeds
the cursor: `frameIdx` jumps to `1` and `activeTs`/`desiredTs` to
`some 200`, where the claim requires them to stay `0`/`some 100`.  The
third conjunct shows the guard would behave as claimed had it read the
live state (captured value `some 100`). -/
theorem fetchFrames_reseeds_on_refresh :
    (fetchFrames none (some ([some 100, some 200], [])) 200
        ⟨[100, 200], some 100, some 100, 0⟩).frameIdx = 1 ∧
    (fetchFrames none (some ([some 100, some 200], [])) 200
        ⟨[100, 200], some 100, some 100, 0⟩).activeTs = some 200 ∧
    (fetchFrames (some 100) (some ([some 100, some 200], [])) 200
        ⟨[100, 200], some 100, some 100, 0⟩) =
      ⟨[100, 200], some 100, some 100, 0⟩ := by
  decide

/-- Claim C4 (code bug): `onPressPlay` evaluated at the failing input.
First press of Play: no prior warm signature, press-time `warmProgress`
is `0`, viewport known, 5-frame window.  The warm pass runs to completion
(final `warmProgress` is `1`, i.e. achieved progress `1 ≥ 0.85`), yet
playback does not auto-start, because the threshold guard compares the
stale press-time `warmProgress` (`0`), not the achieved progress. -/
theorem onPressPlay_stale_progress :
    onPressPlay ⟨false, false, 0, none⟩ true 5 "sig" =
      ⟨false, false, 1, some "sig"⟩ := by
  simp [onPressPlay, WARM_START_THRESHOLD]
  norm_num

/-- Claim C7: while a viewport is known a `desiredTs` change never touches
`activeTs` — it only dispatches a batch for that timestamp — and along any
sequence of such changes `activeTs` stays fixed until some batch settles;
a settling batch (regardless of its per-task outcomes, which it ignores)
sets `activeTs` to its own desired target; with no viewport known the
change sets `activeTs` immediately. -/
theorem handoff_gating :
    (∀ (s : HandoffState) (ts : Option Int),
        (desiredChange s ts true).activeTs = s.activeTs) ∧
    (∀ (s : HandoffState) (evs : List HandoffEvent),
        (∀ e ∈ evs, ∃ ts, e = HandoffEvent.desired ts true) →
        (applyTrace s evs).activeTs = s.activeTs) ∧
    (∀ (s : HandoffState) (j : Nat) (ts : Int) (outs : List Bool),
        s.pending[j]? = some ts → (settleBatch s j outs).activeTs = some ts) ∧
    (∀ (s : HandoffState) (j : Nat) (o1 o2 : List Bool),
        settleBatch s j o1 = settleBatch s j o2) ∧
    (∀ (s : HandoffState) (ts : Int), ts ≠ 0 →
        (desiredChange s (some ts) true).pending = s.pending ++ [ts]) ∧
    (∀ (s : HandoffState) (ts : Int), ts ≠ 0 →
        (desiredChange s (some ts) false).activeTs = some ts) := by
  have hone : ∀ (s : HandoffState) (ts : Option Int),
      (desiredChange s ts true).activeTs = s.activeTs := by
    intro s ts
    match ts with
    | none => rfl
    | some t =>
      by_cases ht : t = 0 <;> simp [desiredChange, ht]
  refine ⟨hone, ?_, ?_, ?_, ?_, ?_⟩
  · intro s evs
    induction evs generalizing s with
    | nil => intro _; rfl
    | cons e rest ih =>
      intro hall
      obtain ⟨ts, rfl⟩ := hall e (List.mem_cons_self e rest)
      have hrest := ih (desiredChange s ts true)
        (fun e' he' => hall e' (List.mem_cons_of_mem _ he'))
      simp only [applyTrace, List.foldl_cons, applyEvent] at hrest ⊢
      rw [hrest, hone]
  · intro s j ts outs hj
    simp [settleBatch, hj]
  · intro s j o1 o2
    simp [settleBatch]
  · intro s ts ht
    simp [desiredChange, ht]
  · intro s ts ht
    simp [desiredChange, ht]

/-- Witness for C7 at concrete inputs. -/
theorem handoff_gating_witness :
    (applyTrace ⟨some 7, false, []⟩
        [HandoffEvent.desired (some 5) true,
         HandoffEvent.desired (some 6) true]).activeTs = some 7 ∧
    (settleBatch ⟨some 7, true, [5, 6]⟩ 0 [true, false]).activeTs = some 5 ∧
    (desiredChange ⟨none, false, []⟩ (some 9) false).activeTs = some 9 := by
  refine ⟨?_, ?_, ?_⟩
  · apply handoff_gating.2.1
    intro e he
    simp only [List.mem_cons, List.not_mem_nil, or_false] at he
    rcases he with rfl | rfl
    · exact ⟨some 5, rfl⟩
    · exact ⟨some 6, rfl⟩
  · exact handoff_gating.2.2.1 _ 0 5 [true, false] rfl
  · exact handoff_gating.2.2.2.2.2 _ 9 (by decide)


/-- The spawn-phase state satisfies the pool invariant. -/
theorem runnerInv_init {α : Type} (outcome : Nat → Settled α) (N k : Nat) :
    RunnerInv outcome N k (initState α N k) := by
  constructor
  · simp [initState]
  · simp [initState, Nat.min_le_right]
  · intro j hj
    simp only [initState] at hj ⊢
    exact Finset.mem_range.mp hj
  · intro j hj hnot
    simp only [initState] at hj hnot
    exact absurd (Finset.mem_range.mpr hj) hnot
  · intro j _
    rfl
  · intro j _
    rfl
  · intro hk hcur
    simp only [initState] at hcur ⊢
    have hpos : 0 < min k N := by omega
    exact ⟨0, Finset.mem_range.mpr hpos⟩

/-- Case analysis of a successful `settleTask` step. -/
theorem settleTask_cases {α : Type} {outcome : Nat → Settled α} {N : Nat}
    {s s' : RunnerState α} {t : Nat}
    (hstep : settleTask outcome N s t = some s') :
    t ∈ s.inflight ∧
    ((s.cursor < N ∧
       s' = { cursor := s.cursor + 1,
              inflight := insert s.cursor (s.inflight.erase t),
              results := fun j => if j = t then some (outcome t)
                else s.results j }) ∨
     (¬ s.cursor < N ∧
       s' = { cursor := s.cursor, inflight := s.inflight.erase t,
              results := fun j => if j = t then some (outcome t)
                else s.results j })) := by
  by_cases ht : t ∈ s.inflight
  · refine ⟨ht, ?_⟩
    simp only [settleTask, if_pos ht, Option.some.injEq] at hstep
    by_cases hcur : s.cursor < N
    · exact Or.inl ⟨hcur, by rw [← hstep, if_pos hcur]⟩
    · exact Or.inr ⟨hcur, by rw [← hstep, if_neg hcur]⟩
  · simp [settleTask, ht] at hstep

/-- `settleTask` preserves the pool invariant. -/
theorem runnerInv_step {α : Type} {outcome : Nat → Settled α} {N k : Nat}
    {s s' : RunnerState α} {t : Nat} (hinv : RunnerInv outcome N k s)
    (hstep : settleTask outcome N s t = some s') :
    RunnerInv outcome N k s' := by
  obtain ⟨ht, hcase⟩ := settleTask_cases hstep
  have htlt : t < s.cursor := hinv.inflight_lt t ht
  have hcardpos : 0 < s.inflight.card := Finset.card_pos.mpr ⟨t, ht⟩
  rcases hcase with ⟨hcur, rfl⟩ | ⟨hcur, rfl⟩
  · constructor
    · dsimp only
      calc (insert s.cursor (s.inflight.erase t)).card
          ≤ (s.inflight.erase t).card + 1 := Finset.card_insert_le _ _
        _ = s.inflight.card - 1 + 1 := by rw [Finset.card_erase_of_mem ht]
        _ ≤ s.inflight.card := by omega
        _ ≤ min k N := hinv.card_le
    · dsimp only
      omega
    · intro j hj
      dsimp only at hj ⊢
      rcases Finset.mem_insert.mp hj with rfl | hj'
      · omega
      · have := hinv.inflight_lt j (Finset.mem_of_mem_erase hj')
        omega
    · intro j hj hnot
      dsimp only at hj hnot ⊢
      by_cases hjt : j = t
      · subst hjt
        simp
      · rw [if_neg hjt]
        have hjc : j ≠ s.cursor := fun h => hnot (h ▸ Finset.mem_insert_self _ _)
        have hjin : j ∉ s.inflight := fun hmem =>
          hnot (Finset.mem_insert_of_mem (Finset.mem_erase.mpr ⟨hjt, hmem⟩))
        exact hinv.settled_ok j (by omega) hjin
    · intro j hj
      dsimp only at hj ⊢
      have hjt : j ≠ t := by omega
      rw [if_neg hjt]
      exact hinv.fresh j (by omega)
    · intro j hj
      dsimp only at hj ⊢
      rcases Finset.mem_insert.mp hj with rfl | hj'
      · have hjt : s.cursor ≠ t := by omega
        rw [if_neg hjt]
        exact hinv.fresh s.cursor le_rfl
      · have hjt : j ≠ t := (Finset.mem_erase.mp hj').1
        rw [if_neg hjt]
        exact hinv.inflight_unsettled j (Finset.mem_of_mem_erase hj')
    · intro _ _
      exact ⟨s.cursor, Finset.mem_insert_self _ _⟩
  · constructor
    · dsimp only
      exact le_trans Finset.card_erase_le hinv.card_le
    · exact hinv.cursor_le
    · intro j hj
      dsimp only at hj ⊢
      exact hinv.inflight_lt j (Finset.mem_of_mem_erase hj)
    · intro j hj hnot
      dsimp only at hj hnot ⊢
      by_cases hjt : j = t
      · subst hjt
        simp
      · rw [if_neg hjt]
        have hjin : j ∉ s.inflight := fun hmem =>
          hnot (Finset.mem_erase.mpr ⟨hjt, hmem⟩)
        exact hinv.settled_ok j hj hjin
    · intro j hj
      dsimp only at hj ⊢
      have hjt : j ≠ t := by omega
      rw [if_neg hjt]
      exact hinv.fresh j hj
    · intro j hj
      dsimp only at hj ⊢
      have hjt : j ≠ t := (Finset.mem_erase.mp hj).1
      rw [if_neg hjt]
      exact hinv.inflight_unsettled j (Finset.mem_of_mem_erase hj)
    · intro _ hc
      exact absurd hc hcur

/-- Every reachable runner state satisfies the pool invariant. -/
theorem runnerInv_reachable {α : Type} {outcome : Nat → Settled α}
    {N k : Nat} {s : RunnerState α} (h : Reachable outcome N k s) :
    RunnerInv outcome N k s := by
  induction h with
  | init => exact runnerInv_init outcome N k
  | step _ hstep ih => exact runnerInv_step ih hstep

/-- Each settle step decreases the remaining-work measure. -/
theorem runnerMeasure_step {α : Type} {outcome : Nat → Settled α} {N k : Nat}
    {s s' : RunnerState α} {t : Nat} (hinv : RunnerInv outcome N k s)
    (hstep : settleTask outcome N s t = some s') :
    runnerMeasure N s' < runnerMeasure N s := by
  obtain ⟨ht, hcase⟩ := settleTask_cases hstep
  have hcardpos : 0 < s.inflight.card := Finset.card_pos.mpr ⟨t, ht⟩
  have herase : (s.inflight.erase t).card = s.inflight.card - 1 :=
    Finset.card_erase_of_mem ht
  rcases hcase with ⟨hcur, rfl⟩ | ⟨hcur, rfl⟩
  · have hnotmem : s.cursor ∉ s.inflight.erase t := fun hmem => by
      have := hinv.inflight_lt s.cursor (Finset.mem_of_mem_erase hmem)
      omega
    have hins : (insert s.cursor (s.inflight.erase t)).card =
        (s.inflight.erase t).card + 1 := Finset.card_insert_of_not_mem hnotmem
    simp only [runnerMeasure, hins, herase]
    omega
  · simp only [runnerMeasure, herase]
    omega

/-- Claim C1: for every task list of length `N` and pool size `k ≥ 1`,
`runWithConcurrency` never has more than `min k N` tasks in flight
(started but unsettled) in any reachable state; on an empty task list the
spawn phase already is the terminal state — no worker exists, no step is
possible, and the settled-result array is empty; and for `k > N` the pool
is identical to one with exactly one worker per task (`k = N`), all `N`
tasks in flight at once (transitions do not depend on `k`). -/
theorem runWithConcurrency_bound {α : Type} (outcome : Nat → Settled α)
    (N k : Nat) (_hk : 1 ≤ k) :
    (∀ s : RunnerState α, Reachable outcome N k s →
        s.inflight.card ≤ min k N) ∧
    ((initState α 0 k).inflight = ∅ ∧
      (∀ t, settleTask outcome 0 (initState α 0 k) t = none) ∧
      (List.range 0).map (initState α 0 k).results = []) ∧
    (N < k → initState α N k = initState α N N ∧
      (initState α N k).inflight = Finset.range N) := by
  refine ⟨fun s hs => (runnerInv_reachable hs).card_le,
    ⟨?_, fun t => ?_, rfl⟩, fun hNk => ⟨?_, ?_⟩⟩
  · simp [initState]
  · simp [settleTask, initState]
  · simp [initState, min_eq_right hNk.le, min_self]
  · simp [initState, min_eq_right hNk.le]

/-- Witness for C1 at concrete pool sizes. -/
theorem runWithConcurrency_bound_witness :
    (initState Unit 3 2).inflight.card ≤ min 2 3 ∧
    (initState Unit 3 5).inflight = Finset.range 3 := by
  constructor
  · exact (runWithConcurrency_bound (fun _ => (Settled.rejected : Settled Unit))
      3 2 (by decide)).1 _ Reachable.init
  · exact ((runWithConcurrency_bound (fun _ => (Settled.rejected : Settled Unit))
      3 5 (by decide)).2.2 (by decide)).2

/-- A terminal (no task in flight) reachable state has every slot of the
first `N` results settled with its own task's outcome, and nothing else. -/
theorem runner_terminal {α : Type} {outcome : Nat → Settled α} {N k : Nat}
    {s : RunnerState α} (hk : 1 ≤ k) (hs : Reachable outcome N k s)
    (hemp : s.inflight = ∅) :
    (∀ j, j < N → s.results j = some (outcome j)) ∧
    (∀ j, N ≤ j → s.results j = none) := by
  have hinv := runnerInv_reachable hs
  have hcur : s.cursor = N := by
    rcases lt_or_eq_of_le hinv.cursor_le with hlt | heq
    · obtain ⟨t, ht⟩ := hinv.can_progress hk hlt
      rw [hemp] at ht
      exact absurd ht (Finset.not_mem_empty t)
    · exact heq
  refine ⟨fun j hj => ?_, fun j hj => hinv.fresh j (by omega)⟩
  exact hinv.settled_ok j (by omega)
    (by rw [hemp]; exact Finset.not_mem_empty j)

/-- From any reachable state the runner can finish: bounded induction on
the remaining-work measure. -/
theorem runner_completes_aux {α : Type} (outcome : Nat → Settled α)
    (N k : Nat) (_hk : 1 ≤ k) :
    ∀ m (s : RunnerState α), runnerMeasure N s ≤ m →
    Reachable outcome N k s →
    ∃ s2 : RunnerState α, Relation.ReflTransGen (StepRel outcome N) s s2 ∧
      Reachable outcome N k s2 ∧ s2.inflight = ∅ := by
  intro m
  induction m with
  | zero =>
    intro s hm hs
    have hemp : s.inflight = ∅ := by
      have : s.inflight.card = 0 := by
        simp only [runnerMeasure] at hm
        omega
      exact Finset.card_eq_zero.mp this
    exact ⟨s, Relation.ReflTransGen.refl, hs, hemp⟩
  | succ n ih =>
    intro s hm hs
    by_cases hemp : s.inflight = ∅
    · exact ⟨s, Relation.ReflTransGen.refl, hs, hemp⟩
    · obtain ⟨t, ht⟩ := Finset.nonempty_iff_ne_empty.mpr hemp
      obtain ⟨s', hstep⟩ : ∃ s', settleTask outcome N s t = some s' := by
        simp only [settleTask, if_pos ht]
        exact ⟨_, rfl⟩
      have hs' : Reachable outcome N k s' := Reachable.step hs hstep
      have hlt := runnerMeasure_step (runnerInv_reachable hs) hstep
      obtain ⟨s2, hsteps, hreach2, hemp2⟩ := ih s' (by omega) hs'
      exact ⟨s2, Relation.ReflTransGen.head ⟨t, hstep⟩ hsteps, hreach2, hemp2⟩

/-- Claim C6: from any reachable state the runner reaches (in finitely
many settle steps) a terminal state — it resolves, it never gets stuck or
rejects as a whole — whose result array has exactly the slots `0..N-1`
filled in input order, each slot independently holding its own task's
fulfillment or rejection. -/
theorem runWithConcurrency_settles_all {α : Type} (outcome : Nat → Settled α)
    (N k : Nat) (hk : 1 ≤ k) (s : RunnerState α)
    (hs : Reachable outcome N k s) :
    ∃ s2 : RunnerState α, Relation.ReflTransGen (StepRel outcome N) s s2 ∧
      s2.inflight = ∅ ∧
      (∀ j, j < N → s2.results j = some (outcome j)) ∧
      (∀ j, N ≤ j → s2.results j = none) := by
  obtain ⟨s2, hsteps, hreach2, hemp2⟩ :=
    runner_completes_aux outcome N k hk (runnerMeasure N s) s le_rfl hs
  obtain ⟨hset, hfresh⟩ := runner_terminal hk hreach2 hemp2
  exact ⟨s2, hsteps, hemp2, hset, hfresh⟩

/-- Witness for C6 at a concrete run. -/
theorem runWithConcurrency_settles_all_witness :
    ∃ s2 : RunnerState Unit,
      Relation.ReflTransGen
        (StepRel (fun _ => (Settled.rejected : Settled Unit)) 2)
        (initState Unit 2 1) s2 ∧
      s2.inflight = ∅ ∧
      (∀ j, j < 2 → s2.results j = some Settled.rejected) ∧
      (∀ j, 2 ≤ j → s2.results j = none) :=
  runWithConcurrency_settles_all (fun _ => Settled.rejected) 2 1 (by decide)
    _ Reachable.init

/-- Monotone access into a `(· ≤ ·)`-sorted list. -/
theorem sorted_getD_mono {l : List Int} (hs : List.Sorted (· ≤ ·) l) {a b : Nat}
    (hab : a ≤ b) (hb : b < l.length) : l.getD a 0 ≤ l.getD b 0 := by
  have ha : a < l.length := Nat.lt_of_le_of_lt hab hb
  rw [List.getD_eq_getElem l 0 ha, List.getD_eq_getElem l 0 hb]
  rcases Nat.eq_or_lt_of_le hab with rfl | hlt
  · exact le_rfl
  · have h := List.Sorted.rel_get_of_lt hs
      (show (⟨a, ha⟩ : Fin l.length) < ⟨b, hb⟩ from hlt)
    simpa [List.get_eq_getElem] using h

/-- Unfolding equation for one `while` iteration. -/
theorem bsearchGo_succ (frames : List Int) (target : Int) (n lo hi : Nat) :
    bsearchGo frames target (n + 1) lo hi =
      if lo < hi then
        if frames.getD ((lo + hi) / 2) 0 < target then
          bsearchGo frames target n ((lo + hi) / 2 + 1) hi
        else bsearchGo frames target n lo ((lo + hi) / 2)
      else lo := rfl

/-- Loop invariant of the binary search: starting from `[lo, hi]` with
everything below `lo` strictly below `target` and (`target ≤ frames[hi]`
or `hi` is the last index), the loop returns the least index whose value
reaches `target` (or the last index when none does), as long as the fuel
covers `hi - lo`. -/
theorem bsearchGo_spec (frames : List Int) (target : Int)
    (hs : List.Sorted (· ≤ ·) frames) :
    ∀ fuel lo hi, hi - lo ≤ fuel → lo ≤ hi → hi < frames.length →
    (∀ j, j < lo → frames.getD j 0 < target) →
    (target ≤ frames.getD hi 0 ∨ hi = frames.length - 1) →
    lo ≤ bsearchGo frames target fuel lo hi ∧
    bsearchGo frames target fuel lo hi ≤ hi ∧
    (∀ j, j < bsearchGo frames target fuel lo hi → frames.getD j 0 < target) ∧
    (target ≤ frames.getD (bsearchGo frames target fuel lo hi) 0 ∨
      bsearchGo frames target fuel lo hi = frames.length - 1) := by
  intro fuel
  induction fuel with
  | zero =>
    intro lo hi hfuel hlohi hhi hlow hhigh
    have hle : lo = hi := by omega
    subst hle
    exact ⟨le_rfl, le_rfl, hlow, hhigh⟩
  | succ n ih =>
    intro lo hi hfuel hlohi hhi hlow hhigh
    by_cases hlh : lo < hi
    · by_cases hmid : frames.getD ((lo + hi) / 2) 0 < target
      · have hres := ih ((lo + hi) / 2 + 1) hi (by omega) (by omega) hhi
          (fun j hj => lt_of_le_of_lt
            (sorted_getD_mono hs (by omega) (by omega)) hmid) hhigh
        rw [bsearchGo_succ, if_pos hlh, if_pos hmid]
        refine ⟨?_, hres.2.1, hres.2.2.1, hres.2.2.2⟩
        have := hres.1
        omega
      · have hres := ih lo ((lo + hi) / 2) (by omega) (by omega) (by omega)
          hlow (Or.inl (not_lt.mp hmid))
        rw [bsearchGo_succ, if_pos hlh, if_neg hmid]
        refine ⟨hres.1, ?_, hres.2.2.1, hres.2.2.2⟩
        have := hres.2.1
        omega
    · rw [bsearchGo_succ, if_neg hlh]
      have hle : lo = hi := by omega
      subst hle
      exact ⟨le_rfl, le_rfl, hlow, hhigh⟩

/-- Claim C2 (amended): on an ascending frame list, for a target strictly
above `frames[i]` and exactly equidistant between adjacent frames
`frames[i]` and `frames[i+1]`, `closestFrameIndex` returns the EARLIER
(lower) index `i`: the lower-bound candidate `a = i+1` is kept only when
it is strictly closer, and on an exact tie the predecessor wins. -/
theorem closestFrameIndex_tie_earlier (frames : List Int) (target : Int)
    (i : Nat) (hs : List.Sorted (· ≤ ·) frames) (hi1 : i + 1 < frames.length)
    (hlt : frames.getD i 0 < target)
    (heq : target - frames.getD i 0 = frames.getD (i + 1) 0 - target) :
    closestFrameIndex frames target = (i : Int) := by
  have hlen : ¬ frames.length = 0 := by omega
  have htlt : target < frames.getD (i + 1) 0 := by omega
  have hspec := bsearchGo_spec frames target hs (frames.length - 1) 0 (frames.length - 1)
    (by omega) (by omega) (by omega) (fun j hj => absurd hj (Nat.not_lt_zero j))
    (Or.inr rfl)
  have hr_le : bsearchGo frames target (frames.length - 1) 0
      (frames.length - 1) ≤ i + 1 := by
    by_contra hgt
    push_neg at hgt
    have := hspec.2.2.1 (i + 1) hgt
    omega
  have hr_ge : i + 1 ≤ bsearchGo frames target (frames.length - 1) 0
      (frames.length - 1) := by
    rcases hspec.2.2.2 with htg | hlast
    · by_contra hlt2
      push_neg at hlt2
      have hmono : frames.getD (bsearchGo frames target (frames.length - 1) 0
          (frames.length - 1)) 0 ≤ frames.getD i 0 :=
        sorted_getD_mono hs (by omega) (by omega)
      omega
    · omega
  have hr_eq : bsearchGo frames target (frames.length - 1) 0
      (frames.length - 1) = i + 1 := le_antisymm hr_le hr_ge
  unfold closestFrameIndex bsearch
  rw [if_neg hlen]
  simp only [Nat.sub_zero, hr_eq, Nat.add_sub_cancel]
  have habs1 : |frames.getD (i + 1) 0 - target| = frames.getD (i + 1) 0 - target :=
    abs_of_pos (by omega)
  have habs2 : |frames.getD i 0 - target| = target - frames.getD i 0 := by
    rw [abs_of_neg (by omega : frames.getD i 0 - target < 0)]
    ring
  rw [if_neg]
  rw [habs1, habs2]
  omega

/-- Counterexample to claim C2 as stated: frames `[100, 200]`, target
`150` exactly equidistant; the claim requires the later index `1`, but
the code returns the earlier index `0` (the strict `<` keeps the
lower-bound candidate only when it is strictly closer, so a tie falls to
the predecessor). -/
theorem closestFrameIndex_tie_counterexample :
    closestFrameIndex [100, 200] 150 = 0 ∧
    closestFrameIndex [100, 200] 150 ≠ 1 := by
  decide

/-- Witness for the amended C2 at concrete inputs. -/
theorem closestFrameIndex_tie_earlier_witness :
    List.Sorted (· ≤ ·) [(100 : Int), 200] ∧
    ([(100 : Int), 200].getD 0 0 < 150 ∧
      (150 : Int) - [(100 : Int), 200].getD 0 0 =
        [(100 : Int), 200].getD 1 0 - 150) ∧
    closestFrameIndex [100, 200] 150 = ((0 : Nat) : Int) := by
  refine ⟨by decide, ⟨by decide, by decide⟩, ?_⟩
  exact closestFrameIndex_tie_earlier [100, 200] 150 0 (by decide) (by decide)
    (by decide) (by decide)

/-- Claim C8: `windowFrames` keeps exactly the trailing (most recent)
entries of the in-window frames `[now - 2h, now]`, up to the cap of 18:
it is a suffix of the filtered list, of length `min 18 (filtered
length)`, ascending whenever the input is ascending, every element lies
in the window, and on 30 frames spanning the last two hours it returns
exactly the most recent 18 in ascending order. -/
theorem windowFrames_spec (frames : List Int) (nowSec : Int)
    (hs : List.Sorted (· ≤ ·) frames) :
    windowFrames frames nowSec <:+
      frames.filter (fun ts => decide (nowSec - 120 * 60 ≤ ts ∧ ts ≤ nowSec)) ∧
    (windowFrames frames nowSec).length =
      min MAX_FRAMES_TO_CACHE
        (frames.filter
          (fun ts => decide (nowSec - 120 * 60 ≤ ts ∧ ts ≤ nowSec))).length ∧
    List.Sorted (· ≤ ·) (windowFrames frames nowSec) ∧
    (∀ ts ∈ windowFrames frames nowSec,
      nowSec - 120 * 60 ≤ ts ∧ ts ≤ nowSec) ∧
    windowFrames frames30 10000 = frames30.drop 12 := by
  refine ⟨List.drop_suffix _ _, ?_, ?_, ?_, by decide⟩
  · simp only [windowFrames, List.length_drop, MAX_FRAMES_TO_CACHE]
    omega
  · exact List.Pairwise.sublist (List.drop_sublist _ _)
      (List.Pairwise.filter _ hs)
  · intro ts hts
    have hmem : ts ∈ frames.filter
        (fun ts => decide (nowSec - 120 * 60 ≤ ts ∧ ts ≤ nowSec)) :=
      (List.drop_suffix _ _).subset hts
    exact of_decide_eq_true (List.mem_filter.mp hmem).2

/-- Witness for C8 at the concrete 30-frame scenario. -/
theorem windowFrames_spec_witness :
    windowFrames frames30 10000 = frames30.drop 12 :=
  (windowFrames_spec frames30 10000 (by decide)).2.2.2.2

/-- Counterexample to claim C9 as stated: at `z = 0` the input
`(lon, lat) = (180, 0)` is mapped to tile `x = floor(360/360) = 1`,
not `x = 0`. -/
theorem lngLatToTile_z0_counterexample : lngLatToTile 180 0 0 ≠ (0, 0, 0) := by
  intro h
  have hx : (lngLatToTile 180 0 0).1 = 0 := by rw [h]
  have hx1 : (lngLatToTile 180 0 0).1 = 1 := by
    simp only [lngLatToTile]
    norm_num
  rw [hx1] at hx
  exact one_ne_zero hx

set_option maxHeartbeats 1000000 in
/-- Claim C9 (amended): at zoom `z = 0` the tile function maps every
`(lon, lat)` with `-180 ≤ lon < 180` and `|lat| ≤ 60` to tile
`(x = 0, y = 0)`.  (The boundary `lon = 180` lands in `x = 1`, and
latitudes beyond the Mercator range likewise leave tile `(0, 0)`; the
proved latitude range is conservative.) -/
theorem lngLatToTile_z0 (lon lat : ℝ) (h1 : -180 ≤ lon) (h2 : lon < 180)
    (h3 : |lat| ≤ 60) : lngLatToTile lon lat 0 = (0, 0, 0) := by
  have hpi3 : (3 : ℝ) < Real.pi := Real.pi_gt_three
  have hpi_pos : (0 : ℝ) < Real.pi := by linarith
  -- the x tile
  have hx : ⌊(lon + 180) / 360 * (2 : ℝ) ^ (0 : ℕ)⌋ = 0 := by
    rw [pow_zero, mul_one, Int.floor_eq_zero_iff, Set.mem_Ico]
    constructor
    · apply div_nonneg (by linarith) (by norm_num)
    · rw [div_lt_one (by norm_num : (0:ℝ) < 360)]
      linarith
  -- the y tile
  have hθabs : |lat * Real.pi / 180| ≤ Real.pi / 3 := by
    rw [abs_div, abs_mul, abs_of_pos hpi_pos]
    rw [show |(180:ℝ)| = 180 by norm_num]
    rw [div_le_div_iff₀ (by norm_num) (by norm_num : (0:ℝ) < 3)]
    nlinarith [abs_nonneg lat, hpi_pos]
  set θ := lat * Real.pi / 180 with hθ
  have hcos : 1 / 2 ≤ Real.cos θ := by
    have hmono := Real.cos_le_cos_of_nonneg_of_le_pi (abs_nonneg θ)
      (by linarith) hθabs
    rw [Real.cos_abs] at hmono
    rw [← Real.cos_pi_div_three]
    exact hmono
  have hcos_pos : 0 < Real.cos θ := by linarith
  have hsincos := Real.sin_sq_add_cos_sq θ
  have hsq3 : Real.sqrt 3 ^ 2 = 3 := Real.sq_sqrt (by norm_num)
  have hsqrt3 : Real.sqrt 3 < 1.8 := by
    rw [Real.sqrt_lt' (by norm_num)]
    norm_num
  have hsin_sq : Real.sin θ ^ 2 ≤ 3 / 4 := by nlinarith
  have hsin_lb : -(Real.sqrt 3 / 2) ≤ Real.sin θ := by
    by_contra hcon
    push_neg at hcon
    have hlt : Real.sqrt 3 / 2 < -Real.sin θ := by linarith
    have hmul : Real.sqrt 3 / 2 * (Real.sqrt 3 / 2) <
        -Real.sin θ * -Real.sin θ :=
      mul_self_lt_mul_self (by positivity) hlt
    nlinarith
  have hsin1_pos : 0 < Real.sin θ + 1 := by nlinarith
  -- rewrite tan + sec as a single quotient
  have hT : Real.tan θ + 1 / Real.cos θ = (Real.sin θ + 1) / Real.cos θ := by
    rw [Real.tan_eq_sin_div_cos, div_add_div_same]
  have hq_pos : 0 < (Real.sin θ + 1) / Real.cos θ := div_pos hsin1_pos hcos_pos
  have hq_le : (Real.sin θ + 1) / Real.cos θ ≤ 4 := by
    rw [div_le_iff₀ hcos_pos]
    nlinarith [Real.sin_le_one θ]
  have hq_ge : Real.sin θ + 1 ≤ (Real.sin θ + 1) / Real.cos θ := by
    rw [le_div_iff₀ hcos_pos]
    nlinarith [Real.cos_le_one θ]
  have hexp : (19 : ℝ) < Real.exp Real.pi := by
    have he1 : (2.7 : ℝ) < Real.exp 1 := by linarith [Real.exp_one_gt_d9]
    have he3 : Real.exp 3 = Real.exp 1 * Real.exp 1 * Real.exp 1 := by
      rw [← Real.exp_add, ← Real.exp_add]
      norm_num
    have h19 : (19 : ℝ) < Real.exp 3 := by nlinarith [Real.exp_pos 1]
    have hle : Real.exp 3 ≤ Real.exp Real.pi := Real.exp_le_exp.mpr (by linarith)
    linarith
  have hlog_le : Real.log ((Real.sin θ + 1) / Real.cos θ) ≤ Real.pi := by
    rw [Real.log_le_iff_le_exp hq_pos]
    linarith
  have hlog_gt : -Real.pi < Real.log ((Real.sin θ + 1) / Real.cos θ) := by
    rw [Real.lt_log_iff_exp_lt hq_pos, Real.exp_neg]
    have hinv : (Real.exp Real.pi)⁻¹ * Real.exp Real.pi = 1 :=
      inv_mul_cancel₀ (ne_of_gt (Real.exp_pos _))
    have hinv_pos : 0 < (Real.exp Real.pi)⁻¹ := by positivity
    nlinarith
  have hy : ⌊(1 - Real.log (Real.tan θ + 1 / Real.cos θ) / Real.pi) / 2 *
      (2 : ℝ) ^ (0 : ℕ)⌋ = 0 := by
    rw [hT, pow_zero, mul_one, Int.floor_eq_zero_iff, Set.mem_Ico]
    have hdiv_le : Real.log ((Real.sin θ + 1) / Real.cos θ) / Real.pi ≤ 1 :=
      (div_le_one hpi_pos).mpr hlog_le
    have hdiv_gt : -1 < Real.log ((Real.sin θ + 1) / Real.cos θ) / Real.pi := by
      rw [lt_div_iff₀ hpi_pos]
      linarith
    constructor
    · linarith
    · linarith
  simp only [lngLatToTile, Prod.mk.injEq]
  exact ⟨hx, hy, trivial⟩

/-- Witness for the amended C9 at a concrete input. -/
theorem lngLatToTile_z0_witness :
    lngLatToTile 0 0 0 = (0, 0, 0) :=
  lngLatToTile_z0 0 0 (by norm_num) (by norm_num) (by norm_num)
